import Mathlib

/-!
Verification development for the market-scanner backend: a shallow embedding
of the indicator engine (`technical_calcs.py`), the funnel filter and manual
scan orchestrator (`main.py`), the result store (`database_service.py`) and
the scheduler read path (`scheduler.py`), together with theorems settling the
frozen specification claims.

Numeric conventions: Python floats are modelled as rationals (`ℚ`); the one
irrational operation, the square root inside the Bollinger standard
deviation, is modelled over `ℝ` via `Real.sqrt`.  A pandas `NaN` cell is
modelled as `Option.none`; a comparison against `NaN` is `false`, matching
IEEE semantics used by pandas boolean columns.
-/

namespace Scanner

/-- One daily OHLCV bar (`open` and `date` are never read by the analysed
code paths and are omitted). Volume is a nonnegative integer, as produced by
`int(d['volume'])` on provider data. -/
structure Bar where
  high : ℚ
  low : ℚ
  close : ℚ
  volume : ℕ
deriving DecidableEq

def closes (bars : List Bar) : List ℚ := bars.map Bar.close

/-- `pandas.Series.ewm(span=s).mean()` with the default `adjust=True`:
running numerator `n_i = x_i + (1-a) n_{i-1}` and denominator
`d_i = 1 + (1-a) d_{i-1}`, output `n_i / d_i`. -/
def ewmAux (a : ℚ) (n d : ℚ) : List ℚ → List ℚ
  | [] => []
  | x :: t =>
    let n2 := x + (1 - a) * n
    let d2 := 1 + (1 - a) * d
    n2 / d2 :: ewmAux a n2 d2 t

def ewm (span : ℕ) (xs : List ℚ) : List ℚ :=
  ewmAux (2 / ((span : ℚ) + 1)) 0 0 xs

/-- The rolling window of width `w` ending at index `i` (pandas
`rolling(window=w)`): elements `i+1-w .. i`. -/
def window (w : ℕ) (xs : List ℚ) (i : ℕ) : List ℚ :=
  (xs.take (i + 1)).drop (i + 1 - w)

/-- `rolling(window=w).mean()` at index `i`; `none` models the leading `NaN`
cells produced while fewer than `w` observations are available. -/
def rollingMean (w : ℕ) (xs : List ℚ) (i : ℕ) : Option ℚ :=
  if w ≤ i + 1 ∧ i < xs.length then some ((window w xs i).sum / w) else none

/-- The square of `rolling(window=w).std()` at index `i` — pandas uses the
sample variance (`ddof=1`, divisor `w - 1`). Kept in `ℚ` so that it stays
computable; the square root is taken only where the code forms the band. -/
def rollingVarS (w : ℕ) (xs : List ℚ) (i : ℕ) : Option ℚ :=
  if w ≤ i + 1 ∧ i < xs.length then
    let win := window w xs i
    let m := win.sum / w
    some ((win.map fun x => (x - m) ^ 2).sum / ((w : ℚ) - 1))
  else none

/-- True-range column: `tr1 = high - low`, `tr2 = |high - prevClose|`,
`tr3 = |low - prevClose|`, row-wise max.  On the first row `close.shift()`
is `NaN` and the pandas row-max skips it, leaving `high - low`. -/
def trAux (prev : Bar) : List Bar → List ℚ
  | [] => []
  | b :: t =>
    max (b.high - b.low) (max |b.high - prev.close| |b.low - prev.close|) :: trAux b t

def trList : List Bar → List ℚ
  | [] => []
  | b :: t => (b.high - b.low) :: trAux b t

/-- Keltner ATR column: `tr.ewm(span=20).mean()` (`calculate_ttm_squeeze`). -/
def atrAt (bars : List Bar) (i : ℕ) : ℚ := (ewm 20 (trList bars)).getD i 0

/-- Keltner centre: `close.ewm(span=20).mean()`. -/
def kcMiddleAt (bars : List Bar) (i : ℕ) : ℚ := (ewm 20 (closes bars)).getD i 0

def kcUpperAt (bars : List Bar) (i : ℕ) : ℚ := kcMiddleAt bars i + atrAt bars i * (1.5 : ℚ)

def kcLowerAt (bars : List Bar) (i : ℕ) : ℚ := kcMiddleAt bars i - atrAt bars i * (1.5 : ℚ)

/-- `bb_std` column over `ℝ`: square root of the rolling sample variance. -/
noncomputable def bbStdR (bars : List Bar) (i : ℕ) : Option ℝ :=
  (rollingVarS 20 (closes bars) i).map fun v : ℚ => Real.sqrt (v : ℝ)

/-- `bb_upper = bb_middle + bb_std * 2`. -/
noncomputable def bbUpperR (bars : List Bar) (i : ℕ) : Option ℝ :=
  (rollingMean 20 (closes bars) i).bind fun m : ℚ =>
    (bbStdR bars i).map fun s : ℝ => (m : ℝ) + s * 2

/-- `bb_lower = bb_middle - bb_std * 2`. -/
noncomputable def bbLowerR (bars : List Bar) (i : ℕ) : Option ℝ :=
  (rollingMean 20 (closes bars) i).bind fun m : ℚ =>
    (bbStdR bars i).map fun s : ℝ => (m : ℝ) - s * 2

/-- Decides `2 * Real.sqrt v ≤ t` for rationals `0 ≤ v` without leaving `ℚ`
(`sqLeSqrt_iff` below proves this characterisation). -/
def sqLeSqrt (v t : ℚ) : Bool := decide (0 ≤ t ∧ 4 * v ≤ t ^ 2)

/-- `df['squeeze'] = (bb_upper <= kc_upper) & (bb_lower >= kc_lower)`.
Rows whose Bollinger cells are `NaN` compare as `false`. -/
def squeezeFlag (bars : List Bar) (i : ℕ) : Bool :=
  match rollingMean 20 (closes bars) i, rollingVarS 20 (closes bars) i with
  | some m, some v =>
    sqLeSqrt v (kcUpperAt bars i - m) && sqLeSqrt v (m - kcLowerAt bars i)
  | _, _ => false

def flagsList (bars : List Bar) : List Bool :=
  (List.range bars.length).map (squeezeFlag bars)

/-- Count of leading `true`s; applied to the reversed flag column this is the
backward-scanning loop of `calculate_ttm_squeeze` (lines 92–97). -/
def leadingTrues : List Bool → ℕ
  | [] => 0
  | b :: t => if b then leadingTrues t + 1 else 0

def squeezeDaysF (bars : List Bar) : ℕ := leadingTrues (flagsList bars).reverse

/-- `calculate_atr`: ATR as `tr.ewm(span=period).mean()`, latest value; on an
empty frame the column access raises and the function returns `None`. -/
def calculate_atr (bars : List Bar) (period : ℕ := 14) : Option ℚ :=
  if bars.isEmpty then none else some ((ewm period (trList bars)).getLastD 0)

def lastCloseOf (bars : List Bar) : ℚ := (closes bars).getLastD 0

def lastVolumeOf (bars : List Bar) : ℕ := (bars.map Bar.volume).getLastD 0

/-- `atr_ratio = (atr / close) * 100 if atr and close > 0 else None` — note
the Python truthiness test: `atr` of `None` *or* `0.0` yields `None`. -/
def atrRatioCalc (bars : List Bar) : Option ℚ :=
  match calculate_atr bars with
  | some a => if a ≠ 0 ∧ 0 < lastCloseOf bars then some (a / lastCloseOf bars * 100) else none
  | none => none

structure SqueezeRes where
  squeeze_days : ℕ
  squeeze_intensity : String
  latest_close : ℚ
  latest_volume : ℕ
  atr : Option ℚ
  atr_ratio : Option ℚ
deriving DecidableEq

/-- `calculate_ttm_squeeze`: returns a result only when the backward
consecutive-squeeze count is at least the hard-coded 5. -/
def calculate_ttm_squeeze (bars : List Bar) : Option SqueezeRes :=
  let d := squeezeDaysF bars
  if 5 ≤ d then
    some { squeeze_days := d
           squeeze_intensity := if 15 ≤ d then "high" else if 10 ≤ d then "medium" else "low"
           latest_close := lastCloseOf bars
           latest_volume := lastVolumeOf bars
           atr := calculate_atr bars
           atr_ratio := atrRatioCalc bars }
  else none

structure EmaRes where
  ema_9 : ℚ
  ema_50 : ℚ
  ema_200 : ℚ
  ema_9_slope : Option ℚ
  ema_50_slope : Option ℚ
  stacked : Bool
deriving DecidableEq

/-- `Series.diff(5)` evaluated at the last row: `NaN` (`none`) while fewer
than six rows exist. -/
def diffAtLast (k : ℕ) (ys : List ℚ) : Option ℚ :=
  if k < ys.length then some (ys.getLastD 0 - ys.getD (ys.length - 1 - k) 0) else none

def optPos : Option ℚ → Bool
  | some q => decide (0 < q)
  | none => false

/-- `calculate_emas_and_check_stacking`: EMAs with spans 9/50/200, slopes as
`diff(5)`, stacked iff `ema_9 > ema_50 > ema_200` with both slopes positive
(a `NaN` slope fails the comparison). An empty frame raises and yields
`None`. -/
def calculate_emas_and_check_stacking (bars : List Bar) : Option EmaRes :=
  if bars.isEmpty then none
  else
    let cl := closes bars
    let e9 := ewm 9 cl
    let e50 := ewm 50 cl
    let e200 := ewm 200 cl
    let v9 := e9.getLastD 0
    let v50 := e50.getLastD 0
    let v200 := e200.getLastD 0
    let s9 := diffAtLast 5 e9
    let s50 := diffAtLast 5 e50
    some { ema_9 := v9, ema_50 := v50, ema_200 := v200
           ema_9_slope := s9, ema_50_slope := s50
           stacked := decide (v50 < v9) && decide (v200 < v50) && optPos s9 && optPos s50 }

/-- `calculate_ttm_squeeze_with_ema_filter`: squeeze computed only when the
EMA check reports `stacked`; the EMA annotation added by the Python code does
not alter any field read downstream. -/
def calculate_ttm_squeeze_with_ema_filter (bars : List Bar) : Option SqueezeRes :=
  match calculate_emas_and_check_stacking bars with
  | none => none
  | some e => if e.stacked then calculate_ttm_squeeze bars else none

/-- Per-candidate reporting decision of the market-wide squeeze path:
`analyze_ttm_squeeze_concurrent` keeps a result when
`squeeze_days >= min_squeeze_days`, and `market_scanner_fast` then drops it
when `atr_ratio is not None and atr_ratio < 1.0`. -/
def reported (bars : List Bar) (min_squeeze_days : ℕ) : Bool :=
  match calculate_ttm_squeeze_with_ema_filter bars with
  | none => false
  | some r =>
    if min_squeeze_days ≤ r.squeeze_days then
      match r.atr_ratio with
      | some q => if q < 1 then false else true
      | none => true
    else false

/-- `calculate_ema` from `main.py`: seeded at the first price, standard
`2/(period+1)` recurrence; with fewer prices than the period it returns the
last price (`0` when empty). -/
def calculate_ema (prices : List ℚ) (period : ℕ) : ℚ :=
  if prices.length < period then prices.getLastD 0
  else
    let mult : ℚ := 2 / ((period : ℚ) + 1)
    prices.tail.foldl (fun e p => p * mult + e * (1 - mult)) (prices.headD 0)

/-- `turnover = latestClose * latestVolume` (`volume_usd` in
`market_scanner_fast`). -/
def turnover (bars : List Bar) : ℚ := lastCloseOf bars * (lastVolumeOf bars : ℚ)

/-- Stage-1 liquidity gate: `volume_usd >= min_turnover`. -/
def passesLiquidityGate (bars : List Bar) (minTurnover : ℚ) : Bool :=
  decide (minTurnover ≤ turnover bars)

/-- Membership in `ttm_squeeze_candidates` for one fetched symbol
(`market_scanner_fast` step 3): requires strictly more than 20 bars and the
turnover gate. -/
def squeezeCandidate (bars : List Bar) (minTurnover : ℚ) : Bool :=
  if 20 < bars.length then passesLiquidityGate bars minTurnover else false

/-- `statistics.median` on a nonempty integer list: sorted middle element,
or the mean of the two middle elements for even length. -/
def pymedian (l : List ℕ) : ℚ :=
  let s := l.insertionSort (· ≤ ·)
  let n := l.length
  if n % 2 = 1 then (s.getD (n / 2) 0 : ℚ)
  else ((s.getD (n / 2 - 1) 0 : ℚ) + (s.getD (n / 2) 0 : ℚ)) / 2

def recentVolumes (bars : List Bar) : List ℕ :=
  (bars.drop (bars.length - 3)).map Bar.volume

def trailingVolumes (bars : List Bar) : List ℕ :=
  (bars.drop (bars.length - 30)).map Bar.volume

/-- Membership in `volume_spike_candidates` for one fetched symbol, mirroring
the nested control flow of `market_scanner_fast` lines 1743–1785 (the
`continue` on zero median / all-zero recent volumes becomes `false`). -/
def spikeCandidate (bars : List Bar) (minTurnover minVolumeRatio : ℚ) : Bool :=
  if 20 < bars.length then
    if passesLiquidityGate bars minTurnover then
      if 30 ≤ bars.length then
        let recent := recentVolumes bars
        let med := pymedian (trailingVolumes bars)
        if med ≤ 0 ∨ recent.all (· = 0) then false
        else
          let cl := closes bars
          (recent.all fun v => decide (med * minVolumeRatio ≤ (v : ℚ))) &&
            decide (calculate_ema cl 9 < cl.getLastD 0)
      else false
    else false
  else false

/-! ### Result store, scan registry and orchestrator state (`database_service.py`, `main.py`, `scheduler.py`) -/

structure ScanResultRow where
  symbol : String
  country : String
  scan_type : String
deriving DecidableEq

structure ScanSessionRec where
  country : String
  scan_type : String
  status : String
  end_time : ℕ
  results_count : ℕ
deriving DecidableEq

structure DB where
  scan_results : List ScanResultRow
  scan_sessions : List ScanSessionRec
deriving DecidableEq

/-- One formatted per-symbol payload handed to the store (only the fields the
claims read are retained). -/
structure RowIn where
  symbol : String
deriving DecidableEq

/-- The `formatted_results` dictionary built by `run_market_scanner_manual`. -/
structure FormattedResults where
  ttm_squeeze : List RowIn
  volume_spikes : List RowIn
deriving DecidableEq

/-- `DatabaseService.clear_old_results(country)` with `scan_type=None`:
deletes every result row of the country. -/
def clear_old_results (db : DB) (country : String) : DB :=
  { db with scan_results := db.scan_results.filter fun r => !(r.country == country) }

def ttmRowsOf (country : String) (res : FormattedResults) : List ScanResultRow :=
  res.ttm_squeeze.map fun s => ⟨s.symbol, country, "ttm_squeeze"⟩

def spikeRowsOf (country : String) (res : FormattedResults) : List ScanResultRow :=
  res.volume_spikes.map fun s => ⟨s.symbol, country, "volume_spike"⟩

/-- `DatabaseService.save_scan_results` on its success path: create a session,
clear every old row of the country, insert one row per payload entry and mark
the session completed with the total count. -/
def save_scan_results (country : String) (results : FormattedResults)
    (scanKind : String) (now : ℕ) (db : DB) : DB :=
  let newRows := ttmRowsOf country results ++ spikeRowsOf country results
  let db1 := clear_old_results db country
  { scan_results := db1.scan_results ++ newRows
    scan_sessions := db1.scan_sessions ++
      [⟨country, scanKind, "completed", now, newRows.length⟩] }

/-- Application state shared between the orchestrator, the manual trigger and
the cancel endpoint: the `running_scans` token set plus the store. -/
structure AppState where
  running_scans : List String
  db : DB
deriving DecidableEq

inductive ApiError where
  /-- an `HTTPException(status, detail)` escaping the handler -/
  | httpError (status : ℕ) (detail : String)
  /-- the `UnboundLocalError` raised when the generic `except` block reads
  `country_upper` before its assignment (invalid-country path) -/
  | nameError
deriving DecidableEq

structure RunSummary where
  ttm_squeeze_count : ℕ
  volume_spike_count : ℕ
deriving DecidableEq

def addToken (tok : String) (reg : List String) : List String :=
  if tok ∈ reg then reg else reg ++ [tok]

/-- `run_market_scanner_manual` (with `market_scanner_fast` inlined).
`country` is taken already uppercased (the `.upper()` normalisation is
elided, it only affects casing of the input).  `cancelledDuringFetch` models
the cancel endpoint removing the market's token before the checkpoint that
follows the batch fetch: the scanner then returns empty result sets.
`scanOutput` stands for the formatted scanner results of an uncancelled run,
which depend on external fetch data.  The conflict branch reproduces the
actual control flow: the `HTTPException(409)` is caught by the handler's own
generic `except`, which discards the market token (held by the *first* run)
and re-raises a 500. -/
def run_market_scanner_manual (st : AppState) (country : String)
    (cancelledDuringFetch : Bool) (scanOutput : FormattedResults) (now : ℕ) :
    Except ApiError RunSummary × AppState :=
  let cu := country
  if ¬(cu = "US" ∨ cu = "AU") then
    (Except.error ApiError.nameError, st)
  else if cu ∈ st.running_scans then
    (Except.error (ApiError.httpError 500
        ("Error running scanner: 409: Market scanner for " ++ cu ++ " is already running")),
     { st with running_scans := st.running_scans.erase cu })
  else
    let reg1 := addToken cu st.running_scans
    if cancelledDuringFetch then
      let reg2 := reg1.erase cu
      let db2 := save_scan_results cu ⟨[], []⟩ "manual" now st.db
      (Except.ok ⟨0, 0⟩, ⟨reg2.erase cu, db2⟩)
    else
      let db2 := save_scan_results cu scanOutput "manual" now st.db
      (Except.ok ⟨scanOutput.ttm_squeeze.length, scanOutput.volume_spikes.length⟩,
       ⟨reg1.erase cu, db2⟩)

/-- Most recent completed session for a country (`order_by end_time desc`,
`first()`). -/
def latestCompletedSession (db : DB) (country : String) : Option ScanSessionRec :=
  (db.scan_sessions.filter fun s => s.country == country && s.status == "completed").foldl
    (fun acc s =>
      match acc with
      | none => some s
      | some b => if b.end_time < s.end_time then some s else some b)
    none

structure LatestResults where
  ttm_squeeze : List ScanResultRow
  volume_spikes : List ScanResultRow
  last_updated : Option ℕ
  has_scan_info : Bool
deriving DecidableEq

/-- `DatabaseService.get_latest_results`: without a completed session the
empty shape is returned; otherwise all currently stored rows of the country,
split by scan kind, plus the session metadata. -/
def dbGetLatestResults (db : DB) (country : String) : LatestResults :=
  match latestCompletedSession db country with
  | none => ⟨[], [], none, false⟩
  | some sess =>
    ⟨db.scan_results.filter fun r => r.country == country && r.scan_type == "ttm_squeeze",
     db.scan_results.filter fun r => r.country == country && r.scan_type == "volume_spike",
     some sess.end_time, true⟩

/-- `MarketScannerScheduler.get_latest_results`: the database payload, or
`None` when both result lists are empty (Python truthiness of the lists). -/
def schedulerGetLatestResults (db : DB) (country : String) : Option LatestResults :=
  let r := dbGetLatestResults db country
  if r.ttm_squeeze ≠ [] ∨ r.volume_spikes ≠ [] then some r else none

/-! ### Specification-side definitions (for refinement comparisons) -/

/-- Population variance of the rolling 20-bar window (divisor `w`), following
the spec's words "2 standard deviations (population, computed over the same
rolling window)"; to be compared with the source's `rollingVarS`. -/
def rollingVarPopSpec (w : ℕ) (xs : List ℚ) (i : ℕ) : Option ℚ :=
  if w ≤ i + 1 ∧ i < xs.length then
    let win := window w xs i
    let m := win.sum / w
    some ((win.map fun x => (x - m) ^ 2).sum / (w : ℚ))
  else none

/-- Upper Bollinger band as the spec words it: 20-period SMA of close plus
2 population standard deviations over the same window. -/
noncomputable def bbUpperPopSpec (bars : List Bar) (i : ℕ) : Option ℝ :=
  (rollingMean 20 (closes bars) i).bind fun m : ℚ =>
    (rollingVarPopSpec 20 (closes bars) i).map fun v : ℚ => (m : ℝ) + 2 * Real.sqrt (v : ℝ)

/-- Upper Bollinger band at the most recent bar per the amended claim: SMA of
the last 20 closes plus 2 *sample* (ddof = 1) standard deviations. -/
noncomputable def bbUpperSampleSpec (bars : List Bar) : ℝ :=
  let w := (closes bars).drop (bars.length - 20)
  let mu := w.sum / 20
  (mu : ℝ) + 2 * Real.sqrt (((w.map fun x => (x - mu) ^ 2).sum / 19 : ℚ) : ℝ)

/-- Lower Bollinger band counterpart of `bbUpperSampleSpec`. -/
noncomputable def bbLowerSampleSpec (bars : List Bar) : ℝ :=
  let w := (closes bars).drop (bars.length - 20)
  let mu := w.sum / 20
  (mu : ℝ) - 2 * Real.sqrt (((w.map fun x => (x - mu) ^ 2).sum / 19 : ℚ) : ℝ)

/-- The spike-candidate condition as the spec states it: liquidity gate, at
least 30 bars, nonzero trailing median, not all of the last three volumes
zero, each of the last three volumes at least `ratio × median` (inclusive),
and latest close strictly above the 9-period EMA. -/
def spikeCandidateSpec (bars : List Bar) (minTurnover minVolumeRatio : ℚ) : Prop :=
  passesLiquidityGate bars minTurnover = true ∧
  30 ≤ bars.length ∧
  pymedian (trailingVolumes bars) ≠ 0 ∧
  ¬(∀ v ∈ recentVolumes bars, v = 0) ∧
  (∀ v ∈ recentVolumes bars, minVolumeRatio * pymedian (trailingVolumes bars) ≤ (v : ℚ)) ∧
  calculate_ema (closes bars) 9 < (closes bars).getLastD 0

/-! ### Concrete series used by witnesses and counterexamples -/

/-- 25 identical bars: closes constant, high = low = close, so the true range
is zero and both Bollinger and Keltner bands collapse onto the price. -/
def cbars : List Bar := List.replicate 25 ⟨1, 1, 1, 100⟩

/-- 20 bars whose closes alternate 0 and 2: window mean 1, population
variance 1, sample variance 20/19. -/
def cs2bars : List Bar :=
  [⟨0, 0, 0, 1⟩, ⟨2, 2, 2, 1⟩, ⟨0, 0, 0, 1⟩, ⟨2, 2, 2, 1⟩, ⟨0, 0, 0, 1⟩,
   ⟨2, 2, 2, 1⟩, ⟨0, 0, 0, 1⟩, ⟨2, 2, 2, 1⟩, ⟨0, 0, 0, 1⟩, ⟨2, 2, 2, 1⟩,
   ⟨0, 0, 0, 1⟩, ⟨2, 2, 2, 1⟩, ⟨0, 0, 0, 1⟩, ⟨2, 2, 2, 1⟩, ⟨0, 0, 0, 1⟩,
   ⟨2, 2, 2, 1⟩, ⟨0, 0, 0, 1⟩, ⟨2, 2, 2, 1⟩, ⟨0, 0, 0, 1⟩, ⟨2, 2, 2, 1⟩]

/-- 20 identical bars whose turnover is exactly the US default threshold. -/
def c4bars : List Bar := List.replicate 20 ⟨1, 1, 1, 2000000⟩

/-- `c4bars` with one more identical bar (21 bars). -/
def c4bars21 : List Bar := List.replicate 21 ⟨1, 1, 1, 2000000⟩

/-! ### Helper lemmas -/

lemma getLastD_mem {α : Type} : ∀ (l : List α) (d : α), l ≠ [] → l.getLastD d ∈ l
  | [], _, h => absurd rfl h
  | [x], _, _ => by simp [List.getLastD]
  | x :: y :: t, d, _ => by
    rw [List.getLastD_cons]
    exact List.mem_cons_of_mem _ (getLastD_mem (y :: t) x (by simp))

lemma getD_mem {α : Type} (l : List α) (i : ℕ) (d : α) (h : i < l.length) :
    l.getD i d ∈ l := by
  induction l generalizing i with
  | nil => simp at h
  | cons x t ih =>
    cases i with
    | zero => simp [List.getD]
    | succ j =>
      simp only [List.getD_cons_succ]
      exact List.mem_cons_of_mem _ (ih j (by simpa using h))

lemma ewmAux_length (a n d : ℚ) (xs : List ℚ) : (ewmAux a n d xs).length = xs.length := by
  induction xs generalizing n d with
  | nil => rfl
  | cons x t ih => simp [ewmAux, ih]

lemma ewm_length (span : ℕ) (xs : List ℚ) : (ewm span xs).length = xs.length :=
  ewmAux_length _ _ _ _

lemma ewmAux_const (a c : ℚ) (ha : 0 ≤ 1 - a) :
    ∀ (xs : List ℚ) (n d : ℚ), 0 ≤ d → n = c * d → (∀ x ∈ xs, x = c) →
      ∀ y ∈ ewmAux a n d xs, y = c := by
  intro xs
  induction xs with
  | nil => intro n d _ _ _ y hy; simp [ewmAux] at hy
  | cons x t ih =>
    intro n d hd hnd hc y hy
    have hx : x = c := hc x (by simp)
    have hd2 : (0 : ℚ) < 1 + (1 - a) * d := by positivity
    have hn2 : x + (1 - a) * n = c * (1 + (1 - a) * d) := by rw [hx, hnd]; ring
    simp only [ewmAux, List.mem_cons] at hy
    rcases hy with hy | hy
    · rw [hy, hn2, mul_div_assoc, div_self hd2.ne', mul_one]
    · exact ih (x + (1 - a) * n) (1 + (1 - a) * d) hd2.le hn2
        (fun z hz => hc z (List.mem_cons_of_mem _ hz)) y hy

lemma ewm_const_mem (span : ℕ) (c : ℚ) (hs : 1 ≤ span) (xs : List ℚ)
    (hc : ∀ x ∈ xs, x = c) : ∀ y ∈ ewm span xs, y = c := by
  have hpos : (0 : ℚ) < (span : ℚ) + 1 := by positivity
  have ha : (2 : ℚ) / ((span : ℚ) + 1) ≤ 1 := by
    rw [div_le_one hpos]
    have : (1 : ℚ) ≤ (span : ℚ) := by exact_mod_cast hs
    linarith
  exact ewmAux_const _ c (by linarith) xs 0 0 le_rfl (by ring) hc

lemma ewm_getLastD_const (span : ℕ) (c : ℚ) (hs : 1 ≤ span) (xs : List ℚ)
    (hne : xs ≠ []) (hc : ∀ x ∈ xs, x = c) : (ewm span xs).getLastD 0 = c := by
  have hlen : (ewm span xs).length = xs.length := ewm_length span xs
  have hne2 : ewm span xs ≠ [] := by
    intro h
    apply hne
    have := hlen
    rw [h] at this
    exact List.length_eq_zero.mp this.symm
  exact ewm_const_mem span c hs xs hc _ (getLastD_mem _ _ hne2)

lemma ewm_getD_const (span : ℕ) (c : ℚ) (hs : 1 ≤ span) (xs : List ℚ) (i : ℕ)
    (hi : i < xs.length) (hc : ∀ x ∈ xs, x = c) : (ewm span xs).getD i 0 = c := by
  have hlen : (ewm span xs).length = xs.length := ewm_length span xs
  exact ewm_const_mem span c hs xs hc _ (getD_mem _ i _ (by omega))

/-- A bar is "flat at `c`" when its high, low and close all equal `c`. -/
def FlatAt (c : ℚ) (b : Bar) : Prop := b.high = c ∧ b.low = c ∧ b.close = c

lemma trAux_const (c : ℚ) : ∀ (bars : List Bar) (prev : Bar), prev.close = c →
    (∀ b ∈ bars, FlatAt c b) → ∀ y ∈ trAux prev bars, y = 0 := by
  intro bars
  induction bars with
  | nil => intro prev _ _ y hy; simp [trAux] at hy
  | cons b t ih =>
    intro prev hprev hc y hy
    obtain ⟨hh, hl, hcl⟩ := hc b (by simp)
    simp only [trAux, List.mem_cons] at hy
    rcases hy with hy | hy
    · rw [hy, hh, hl, hprev]; simp
    · exact ih b hcl (fun z hz => hc z (List.mem_cons_of_mem _ hz)) y hy

lemma trList_const (c : ℚ) (bars : List Bar) (hc : ∀ b ∈ bars, FlatAt c b) :
    ∀ y ∈ trList bars, y = 0 := by
  cases bars with
  | nil => intro y hy; simp [trList] at hy
  | cons b t =>
    intro y hy
    obtain ⟨hh, hl, _⟩ := hc b (by simp)
    simp only [trList, List.mem_cons] at hy
    rcases hy with hy | hy
    · rw [hy, hh, hl]; ring
    · exact trAux_const c t b (hc b (by simp)).2.2
        (fun z hz => hc z (List.mem_cons_of_mem _ hz)) y hy

lemma trAux_length (prev : Bar) (bars : List Bar) :
    (trAux prev bars).length = bars.length := by
  induction bars generalizing prev with
  | nil => rfl
  | cons b t ih => simp [trAux, ih]

lemma trList_length (bars : List Bar) : (trList bars).length = bars.length := by
  cases bars with
  | nil => rfl
  | cons b t => simp [trList, trAux_length]

lemma sum_const (c : ℚ) (l : List ℚ) (hc : ∀ x ∈ l, x = c) :
    l.sum = l.length * c := by
  induction l with
  | nil => simp
  | cons x t ih =>
    have hx : x = c := hc x (by simp)
    simp only [List.sum_cons, List.length_cons, hx,
      ih (fun z hz => hc z (List.mem_cons_of_mem _ hz))]
    push_cast
    ring

lemma window_mem (w : ℕ) (xs : List ℚ) (i : ℕ) :
    ∀ y ∈ window w xs i, y ∈ xs := fun y hy =>
  List.mem_of_mem_take (List.mem_of_mem_drop hy)

lemma window_length (w : ℕ) (xs : List ℚ) (i : ℕ) (h1 : w ≤ i + 1)
    (h2 : i < xs.length) : (window w xs i).length = w := by
  simp only [window, List.length_drop, List.length_take]
  omega

lemma rollingMean_const (w : ℕ) (c : ℚ) (xs : List ℚ) (i : ℕ) (hw : 1 ≤ w)
    (h1 : w ≤ i + 1) (h2 : i < xs.length) (hc : ∀ x ∈ xs, x = c) :
    rollingMean w xs i = some c := by
  have hwin : ∀ y ∈ window w xs i, y = c := fun y hy => hc y (window_mem w xs i y hy)
  have hsum : (window w xs i).sum = w * c := by
    rw [sum_const c _ hwin, window_length w xs i h1 h2]
  have hw0 : ((w : ℚ)) ≠ 0 := by
    have : (1 : ℚ) ≤ (w : ℚ) := by exact_mod_cast hw
    linarith
  rw [rollingMean, if_pos ⟨h1, h2⟩, hsum, mul_comm, mul_div_assoc, div_self hw0, mul_one]

lemma rollingVarS_const (w : ℕ) (c : ℚ) (xs : List ℚ) (i : ℕ) (hw : 1 ≤ w)
    (h1 : w ≤ i + 1) (h2 : i < xs.length) (hc : ∀ x ∈ xs, x = c) :
    rollingVarS w xs i = some 0 := by
  have hwin : ∀ y ∈ window w xs i, y = c := fun y hy => hc y (window_mem w xs i y hy)
  rw [rollingVarS, if_pos ⟨h1, h2⟩]
  have hsum : (window w xs i).sum = w * c := by
    rw [sum_const c _ hwin, window_length w xs i h1 h2]
  have hw0 : ((w : ℚ)) ≠ 0 := by
    have : (1 : ℚ) ≤ (w : ℚ) := by exact_mod_cast hw
    linarith
  have hm0 : (c - (window w xs i).sum / w) = 0 := by
    rw [hsum, mul_comm, mul_div_assoc, div_self hw0, mul_one, sub_self]
  have hmap : ∀ z ∈ (window w xs i).map fun x => (x - (window w xs i).sum / (w : ℚ)) ^ 2,
      z = (0 : ℚ) := by
    intro z hz
    obtain ⟨x, hx, rfl⟩ := List.mem_map.mp hz
    rw [hwin x hx, hm0]
    ring
  show some ((((window w xs i).map fun x => (x - (window w xs i).sum / (w : ℚ)) ^ 2).sum) /
      ((w : ℚ) - 1)) = some 0
  rw [sum_const 0 _ hmap]
  simp

lemma closes_const (c : ℚ) (bars : List Bar) (hc : ∀ b ∈ bars, FlatAt c b) :
    ∀ x ∈ closes bars, x = c := by
  intro x hx
  obtain ⟨b, hb, rfl⟩ := List.mem_map.mp hx
  exact (hc b hb).2.2

lemma closes_length (bars : List Bar) : (closes bars).length = bars.length :=
  List.length_map _ _

lemma atrAt_const (c : ℚ) (bars : List Bar) (hc : ∀ b ∈ bars, FlatAt c b)
    (i : ℕ) (hi : i < bars.length) : atrAt bars i = 0 := by
  unfold atrAt
  exact ewm_getD_const 20 0 (by norm_num) (trList bars) i
    (by rw [trList_length]; exact hi) (trList_const c bars hc)

lemma kcMiddleAt_const (c : ℚ) (bars : List Bar) (hc : ∀ b ∈ bars, FlatAt c b)
    (i : ℕ) (hi : i < bars.length) : kcMiddleAt bars i = c := by
  unfold kcMiddleAt
  exact ewm_getD_const 20 c (by norm_num) (closes bars) i
    (by rw [closes_length]; exact hi) (closes_const c bars hc)

lemma squeezeFlag_flat_true (c : ℚ) (bars : List Bar) (hc : ∀ b ∈ bars, FlatAt c b)
    (i : ℕ) (h1 : 20 ≤ i + 1) (h2 : i < bars.length) : squeezeFlag bars i = true := by
  have hm := rollingMean_const 20 c (closes bars) i (by norm_num) h1
    (by rw [closes_length]; exact h2) (closes_const c bars hc)
  have hv := rollingVarS_const 20 c (closes bars) i (by norm_num) h1
    (by rw [closes_length]; exact h2) (closes_const c bars hc)
  simp only [squeezeFlag, hm, hv, kcUpperAt, kcLowerAt,
    kcMiddleAt_const c bars hc i h2, atrAt_const c bars hc i h2]
  norm_num [sqLeSqrt]

lemma squeezeFlag_undefined_false (bars : List Bar) (i : ℕ)
    (h : ¬(20 ≤ i + 1 ∧ i < (closes bars).length)) : squeezeFlag bars i = false := by
  have hm : rollingMean 20 (closes bars) i = none := by rw [rollingMean, if_neg h]
  simp only [squeezeFlag, hm]

lemma cbars_flat : ∀ b ∈ cbars, FlatAt 1 b := by
  intro b hb
  rw [List.eq_of_mem_replicate hb]
  exact ⟨rfl, rfl, rfl⟩

lemma cbars_length : cbars.length = 25 := by simp [cbars]

lemma flagsList_cbars : flagsList cbars = List.replicate 18 false ++ false :: List.replicate 6 true := by
  have hstep : flagsList cbars = (List.range 25).map fun i => decide (19 ≤ i) := by
    unfold flagsList
    rw [cbars_length]
    apply List.map_congr_left
    intro i hi
    have hi25 : i < 25 := List.mem_range.mp hi
    by_cases h19 : 19 ≤ i
    · rw [squeezeFlag_flat_true 1 cbars cbars_flat i (by omega) (by rw [cbars_length]; omega)]
      simp [h19]
    · rw [squeezeFlag_undefined_false cbars i (by rw [closes_length, cbars_length]; omega)]
      simp [h19]
  rw [hstep]
  decide

lemma leadingTrues_replicate_true (k : ℕ) : leadingTrues (List.replicate k true) = k := by
  induction k with
  | zero => rfl
  | succ n ih => simp [List.replicate, leadingTrues, ih]

lemma leadingTrues_replicate_append (k : ℕ) (rest : List Bool) :
    leadingTrues (List.replicate k true ++ false :: rest) = k := by
  induction k with
  | zero => simp [leadingTrues]
  | succ n ih => simp [List.replicate, leadingTrues, ih]

lemma squeezeDaysF_of_flags (bars : List Bar) (k : ℕ) (pre : List Bool)
    (h : flagsList bars = pre ++ false :: List.replicate k true) : squeezeDaysF bars = k := by
  unfold squeezeDaysF
  rw [h, List.reverse_append, List.reverse_cons, List.reverse_replicate,
    List.append_assoc, List.singleton_append]
  exact leadingTrues_replicate_append k pre.reverse

lemma squeezeDaysF_of_flags_all (bars : List Bar)
    (h : flagsList bars = List.replicate bars.length true) :
    squeezeDaysF bars = bars.length := by
  unfold squeezeDaysF
  rw [h, List.reverse_replicate]
  exact leadingTrues_replicate_true _

lemma squeezeDaysF_cbars : squeezeDaysF cbars = 6 :=
  squeezeDaysF_of_flags cbars 6 (List.replicate 18 false) flagsList_cbars

lemma two_sqrt_eq (v : ℚ) : 2 * Real.sqrt (v : ℝ) = Real.sqrt (4 * (v : ℝ)) := by
  rw [show (4 : ℝ) * v = 2 ^ 2 * v by ring, Real.sqrt_mul (by positivity),
    Real.sqrt_sq (by norm_num)]

lemma sqLeSqrt_iff (v t : ℚ) : sqLeSqrt v t = true ↔ 2 * Real.sqrt (v : ℝ) ≤ (t : ℝ) := by
  rw [sqLeSqrt, decide_eq_true_eq, two_sqrt_eq, Real.sqrt_le_iff]
  constructor
  · rintro ⟨h1, h2⟩
    refine ⟨by exact_mod_cast h1, ?_⟩
    have h3 : ((4 * v : ℚ) : ℝ) ≤ ((t ^ 2 : ℚ) : ℝ) := by exact_mod_cast h2
    push_cast at h3
    linarith
  · rintro ⟨h1, h2⟩
    refine ⟨by exact_mod_cast h1, ?_⟩
    have h3 : ((4 * v : ℚ) : ℝ) ≤ ((t ^ 2 : ℚ) : ℝ) := by push_cast; linarith
    exact_mod_cast h3

/-! ### Claim theorems -/

/-- C1: the squeeze predicate at a bar (where the Bollinger cells are
defined) holds exactly when `bbUpper ≤ kcUpper` and `bbLower ≥ kcLower`,
inclusively on both sides; and `squeeze_days` counts the consecutive bars
scanning backward from the most recent bar on which the predicate holds,
stopping at the first failing bar (so a series whose flags end in exactly
`k` trues after a false has `squeeze_days = k`) or at series start. -/
theorem c1_squeeze_predicate_and_days :
    (∀ (bars : List Bar) (i : ℕ) (m v : ℚ),
        rollingMean 20 (closes bars) i = some m →
        rollingVarS 20 (closes bars) i = some v →
        bbUpperR bars i = some ((m : ℝ) + Real.sqrt (v : ℝ) * 2) ∧
        bbLowerR bars i = some ((m : ℝ) - Real.sqrt (v : ℝ) * 2) ∧
        (squeezeFlag bars i = true ↔
          ((m : ℝ) + Real.sqrt (v : ℝ) * 2 ≤ (kcUpperAt bars i : ℝ) ∧
           (m : ℝ) - Real.sqrt (v : ℝ) * 2 ≥ (kcLowerAt bars i : ℝ)))) ∧
    (∀ (bars : List Bar) (k : ℕ) (pre : List Bool),
        flagsList bars = pre ++ false :: List.replicate k true →
        squeezeDaysF bars = k) ∧
    (∀ bars : List Bar,
        flagsList bars = List.replicate bars.length true →
        squeezeDaysF bars = bars.length) := by
  refine ⟨?_, squeezeDaysF_of_flags, squeezeDaysF_of_flags_all⟩
  intro bars i m v hm hv
  refine ⟨by simp [bbUpperR, bbStdR, hm, hv], by simp [bbLowerR, bbStdR, hm, hv], ?_⟩
  simp only [squeezeFlag, hm, hv, Bool.and_eq_true, sqLeSqrt_iff]
  constructor
  · rintro ⟨h1, h2⟩
    push_cast at h1 h2 ⊢
    constructor <;> linarith
  · rintro ⟨h1, h2⟩
    push_cast at h1 h2 ⊢
    constructor <;> linarith

/-- Witness for C1 at the flat 25-bar series (bands coincide on the last six
bars, the 19th-from-last flag is undefined hence false). -/
theorem c1_witness :
    squeezeDaysF cbars = 6 ∧
    (squeezeFlag cbars 19 = true ↔
      (((1 : ℚ) : ℝ) + Real.sqrt ((0 : ℚ) : ℝ) * 2 ≤ (kcUpperAt cbars 19 : ℝ) ∧
       ((1 : ℚ) : ℝ) - Real.sqrt ((0 : ℚ) : ℝ) * 2 ≥ (kcLowerAt cbars 19 : ℝ))) :=
  ⟨c1_squeeze_predicate_and_days.2.1 cbars 6 (List.replicate 18 false) flagsList_cbars,
   (c1_squeeze_predicate_and_days.1 cbars 19 1 0
      (rollingMean_const 20 1 (closes cbars) 19 (by norm_num) (by norm_num)
        (by rw [closes_length, cbars_length]; norm_num) (closes_const 1 cbars cbars_flat))
      (rollingVarS_const 20 1 (closes cbars) 19 (by norm_num) (by norm_num)
        (by rw [closes_length, cbars_length]; norm_num) (closes_const 1 cbars cbars_flat))).2.2⟩

lemma emaStacked_const_false (bars : List Bar) (c : ℚ)
    (hne : bars ≠ []) (hc : ∀ b ∈ bars, b.close = c) :
    ∃ e, calculate_emas_and_check_stacking bars = some e ∧ e.stacked = false := by
  have hcl : ∀ x ∈ closes bars, x = c := by
    intro x hx
    obtain ⟨b, hb, rfl⟩ := List.mem_map.mp hx
    exact hc b hb
  have hclne : closes bars ≠ [] := by
    simp only [closes, ne_eq, List.map_eq_nil_iff]
    exact hne
  have h9 : (ewm 9 (closes bars)).getLastD 0 = c :=
    ewm_getLastD_const 9 c (by norm_num) _ hclne hcl
  have h50 : (ewm 50 (closes bars)).getLastD 0 = c :=
    ewm_getLastD_const 50 c (by norm_num) _ hclne hcl
  have hempty : bars.isEmpty = false := by
    cases bars with
    | nil => exact absurd rfl hne
    | cons b t => rfl
  rw [calculate_emas_and_check_stacking, if_neg (by rw [hempty]; simp)]
  refine ⟨_, rfl, ?_⟩
  show (decide ((ewm 50 (closes bars)).getLastD 0 < (ewm 9 (closes bars)).getLastD 0) &&
    _ && _ && _) = false
  rw [h9, h50]
  simp

/-- C9: on every non-empty bar series with a constant close price the EMA
stacking check returns a result with `stacked = false`: the 9/50/200 EMAs
coincide, so the strict ordering `ema_9 > ema_50 > ema_200` fails. -/
theorem c9_constant_series_not_stacked (bars : List Bar) (c : ℚ)
    (hne : bars ≠ []) (hc : ∀ b ∈ bars, b.close = c) :
    (calculate_emas_and_check_stacking bars).map EmaRes.stacked = some false := by
  obtain ⟨e, he, hs⟩ := emaStacked_const_false bars c hne hc
  rw [he, Option.map_some', hs]

/-- Witness for C9: three identical bars with close 1. -/
theorem c9_witness :
    (calculate_emas_and_check_stacking (List.replicate 3 (⟨1, 1, 1, 5⟩ : Bar))).map
      EmaRes.stacked = some false :=
  c9_constant_series_not_stacked _ 1 (by simp)
    (fun b hb => by rw [List.eq_of_mem_replicate hb])

lemma cbars_not_nil : cbars ≠ [] := by simp [cbars]

lemma withEmaFilter_cbars : calculate_ttm_squeeze_with_ema_filter cbars = none := by
  obtain ⟨e, he, hs⟩ := emaStacked_const_false cbars 1 cbars_not_nil
    (fun b hb => (cbars_flat b hb).2.2)
  rw [calculate_ttm_squeeze_with_ema_filter, he]
  simp [hs]

lemma reported_cbars_false : reported cbars 5 = false := by
  rw [reported, withEmaFilter_cbars]

lemma trList_cbars_not_nil : trList cbars ≠ [] := by
  intro h
  have := trList_length cbars
  rw [h, cbars_length] at this
  simp at this

lemma atr_cbars : calculate_atr cbars = some 0 := by
  have hempty : cbars.isEmpty = false := by simp [cbars]
  rw [calculate_atr, if_neg (by rw [hempty]; simp)]
  rw [ewm_getLastD_const 14 0 (by norm_num) _ trList_cbars_not_nil
    (trList_const 1 cbars cbars_flat)]

lemma atrRatioCalc_cbars : atrRatioCalc cbars = none := by
  rw [atrRatioCalc, atr_cbars]
  simp

lemma ttm_cbars_ratio : (calculate_ttm_squeeze cbars).map SqueezeRes.atr_ratio = some none := by
  rw [calculate_ttm_squeeze]
  simp only [squeezeDaysF_cbars]
  norm_num
  exact atrRatioCalc_cbars

/-- C3 counterexample: the flat 25-bar series has `squeeze_days = 6 ≥ 5` and
no available ATR-ratio, so the claim's criterion holds with the default
`minSqueezeDays = 5`, yet the market-wide path does not report it (the
EMA-stacking filter rejects it, which the claim omits). -/
theorem c3_counterexample :
    squeezeDaysF cbars = 6 ∧
    (calculate_ttm_squeeze cbars).map SqueezeRes.atr_ratio = some none ∧
    reported cbars 5 = false :=
  ⟨squeezeDaysF_cbars, ttm_cbars_ratio, reported_cbars_false⟩

/-- C3 (amended): the market-wide squeeze analysis reports a candidate iff
its EMAs are stacked, its `squeeze_days` is at least `max(minSqueezeDays, 5)`
(the library function hard-codes a floor of 5), and its ATR-ratio, when
available, is at least 1. -/
theorem c3_amended_reported_iff (bars : List Bar) (m : ℕ) :
    reported bars m = true ↔
      ((∃ e, calculate_emas_and_check_stacking bars = some e ∧ e.stacked = true) ∧
       max m 5 ≤ squeezeDaysF bars ∧
       ∀ q, atrRatioCalc bars = some q → 1 ≤ q) := by
  rw [reported, calculate_ttm_squeeze_with_ema_filter]
  cases hE : calculate_emas_and_check_stacking bars with
  | none => simp
  | some e =>
    cases hs : e.stacked with
    | false => simp [hs]
    | true =>
      simp only [hs, if_true, Option.some.injEq]
      rw [calculate_ttm_squeeze]
      by_cases hd : 5 ≤ squeezeDaysF bars
      · rw [if_pos hd]
        cases hr : atrRatioCalc bars with
        | none =>
          simp only [hr]
          by_cases hm : m ≤ squeezeDaysF bars
          · simp [hm, hd, hs, hE]
          · simp [hm, hE]
        | some q =>
          simp only [hr]
          by_cases hm : m ≤ squeezeDaysF bars
          · by_cases hq : q < 1
            · simp [hm, hq, hE]
            · simp [hm, hq, hs, hE]
              exact ⟨hd, by linarith⟩
          · simp [hm, hE]
      · rw [if_neg hd]
        simp [hE]
        intro _ _ h5
        exact absurd h5 hd

lemma closes_cs2 : closes cs2bars =
    [0, 2, 0, 2, 0, 2, 0, 2, 0, 2, 0, 2, 0, 2, 0, 2, 0, 2, 0, 2] := rfl

lemma cs2_len : cs2bars.length = 20 := rfl

lemma window_cs2 : window 20 (closes cs2bars) 19 = closes cs2bars := by
  rw [window, closes_cs2]
  rfl

lemma mean_cs2 : rollingMean 20 (closes cs2bars) 19 = some 1 := by
  rw [rollingMean, if_pos (by rw [closes_length, cs2_len]; omega), window_cs2, closes_cs2]
  norm_num

lemma var_cs2 : rollingVarS 20 (closes cs2bars) 19 = some (20 / 19) := by
  rw [rollingVarS, if_pos (by rw [closes_length, cs2_len]; omega)]
  simp only [window_cs2]
  rw [closes_cs2]
  norm_num

lemma varp_cs2 : rollingVarPopSpec 20 (closes cs2bars) 19 = some 1 := by
  rw [rollingVarPopSpec, if_pos (by rw [closes_length, cs2_len]; omega)]
  simp only [window_cs2]
  rw [closes_cs2]
  norm_num

/-- C2 counterexample: on the alternating 0/2 series the code's upper
Bollinger band (sample standard deviation, divisor 19) differs from the
spec's population-standard-deviation band at the last bar. -/
theorem c2_counterexample : bbUpperR cs2bars 19 ≠ bbUpperPopSpec cs2bars 19 := by
  rw [bbUpperR, bbUpperPopSpec, bbStdR, mean_cs2, var_cs2, varp_cs2]
  simp only [Option.map_some', Option.some_bind, Option.some.injEq]
  intro h
  have h1 : (((1 : ℚ) : ℝ)) = 1 := by norm_num
  have h20 : (((20 / 19 : ℚ) : ℝ)) = 20 / 19 := by push_cast; ring
  rw [h1, h20, Real.sqrt_one, Option.some.injEq] at h
  have hs : Real.sqrt ((20 : ℝ) / 19) = 1 := by linarith
  rw [Real.sqrt_eq_one] at hs
  norm_num at hs

/-- C2 (amended): for a series of at least 20 bars the Bollinger bands at
the most recent bar equal the 20-period SMA of close plus/minus two *sample*
standard deviations (`ddof = 1`, divisor 19) over the last 20 closes. -/
theorem c2_amended_sample_std (bars : List Bar) (h : 20 ≤ bars.length) :
    bbUpperR bars (bars.length - 1) = some (bbUpperSampleSpec bars) ∧
    bbLowerR bars (bars.length - 1) = some (bbLowerSampleSpec bars) := by
  have hlen : (closes bars).length = bars.length := closes_length bars
  have hcond : 20 ≤ (bars.length - 1) + 1 ∧ bars.length - 1 < (closes bars).length := by
    rw [hlen]
    omega
  have hwin : window 20 (closes bars) (bars.length - 1) =
      (closes bars).drop (bars.length - 20) := by
    rw [window, show bars.length - 1 + 1 = bars.length from by omega, ← hlen,
      List.take_length, hlen]
  have h19 : ((20 : ℚ) - 1) = 19 := by norm_num
  constructor
  · rw [bbUpperR, bbStdR, rollingMean, if_pos hcond, rollingVarS, if_pos hcond]
    simp only [hwin, h19, Nat.cast_ofNat, Option.map_some', Option.some_bind,
      Option.some.injEq, bbUpperSampleSpec]
    ring
  · rw [bbLowerR, bbStdR, rollingMean, if_pos hcond, rollingVarS, if_pos hcond]
    simp only [hwin, h19, Nat.cast_ofNat, Option.map_some', Option.some_bind,
      Option.some.injEq, bbLowerSampleSpec]
    ring

/-- Witness for the amended C2 at the alternating 0/2 series (20 bars). -/
theorem c2_witness :
    bbUpperR cs2bars (cs2bars.length - 1) = some (bbUpperSampleSpec cs2bars) ∧
    bbLowerR cs2bars (cs2bars.length - 1) = some (bbLowerSampleSpec cs2bars) :=
  c2_amended_sample_std cs2bars (by rw [cs2_len])

lemma turnover_c4 : turnover c4bars = 2000000 := by
  rw [turnover, show lastCloseOf c4bars = 1 from rfl, show lastVolumeOf c4bars = 2000000 from rfl]
  norm_num

lemma gate_c4 : passesLiquidityGate c4bars 2000000 = true := by
  rw [passesLiquidityGate, turnover_c4]
  simp

/-- C4 counterexample: a 20-bar series whose turnover exactly meets the
threshold passes the liquidity gate yet is not a squeeze candidate — the
code requires strictly more than 20 bars, not "at least 20". -/
theorem c4_counterexample :
    passesLiquidityGate c4bars 2000000 = true ∧
    c4bars.length = 20 ∧
    squeezeCandidate c4bars 2000000 = false := by
  refine ⟨gate_c4, rfl, ?_⟩
  rw [squeezeCandidate, if_neg (by norm_num [c4bars])]

/-- C4 (amended): the turnover gate is inclusive — turnover equal to the
threshold passes and strictly below fails — and the squeeze-candidate set is
exactly the symbols passing the gate that have *more than 20* bars. -/
theorem c4_amended_candidate_iff (bars : List Bar) (minTurnover : ℚ) :
    (turnover bars = minTurnover → passesLiquidityGate bars minTurnover = true) ∧
    (turnover bars < minTurnover → passesLiquidityGate bars minTurnover = false) ∧
    (squeezeCandidate bars minTurnover = true ↔
      (passesLiquidityGate bars minTurnover = true ∧ 20 < bars.length)) := by
  refine ⟨?_, ?_, ?_⟩
  · intro h
    rw [passesLiquidityGate, h]
    simp
  · intro h
    rw [passesLiquidityGate]
    simp only [decide_eq_false_iff_not, not_le]
    exact h
  · rw [squeezeCandidate]
    by_cases hl : 20 < bars.length
    · rw [if_pos hl]
      simp [hl]
    · rw [if_neg hl]
      simp [hl]

/-- Witness for the amended C4: with 21 bars and exact-threshold turnover
the gate passes and the candidate test succeeds. -/
theorem c4_witness :
    passesLiquidityGate c4bars21 2000000 = true ∧
    squeezeCandidate c4bars21 2000000 = true := by
  have ht : turnover c4bars21 = 2000000 := by
    rw [turnover, show lastCloseOf c4bars21 = 1 from rfl,
      show lastVolumeOf c4bars21 = 2000000 from rfl]
    norm_num
  have h := c4_amended_candidate_iff c4bars21 2000000
  exact ⟨h.1 ht, h.2.2.mpr ⟨h.1 ht, by norm_num [c4bars21]⟩⟩

lemma pymedian_nonneg (l : List ℕ) : 0 ≤ pymedian l := by
  rw [pymedian]
  split_ifs with h
  · positivity
  · positivity

/-- C5: the spike-candidate set consists of exactly the symbols passing the
liquidity gate with at least 30 bars, nonzero trailing-30-day median volume,
not all of the last three volumes zero, each of the last three volumes at
least `minVolumeRatio × median` (inclusive at the boundary), and latest
close strictly above the 9-period EMA of close. -/
theorem c5_spike_candidate_iff (bars : List Bar) (minTurnover minVolumeRatio : ℚ) :
    spikeCandidate bars minTurnover minVolumeRatio = true ↔
      spikeCandidateSpec bars minTurnover minVolumeRatio := by
  rw [spikeCandidate, spikeCandidateSpec]
  by_cases h30 : 30 ≤ bars.length
  · rw [if_pos (by omega)]
    by_cases hg : passesLiquidityGate bars minTurnover = true
    · rw [if_pos hg, if_pos h30]
      by_cases hz : pymedian (trailingVolumes bars) ≤ 0 ∨
          (recentVolumes bars).all (· = 0) = true
      · rw [if_pos hz]
        constructor
        · intro h
          exact absurd h (by simp)
        · rintro ⟨-, -, hmed0, hnall, -, -⟩
          exfalso
          rcases hz with hz | hz
          · exact hmed0 (le_antisymm hz (pymedian_nonneg _))
          · exact hnall (by simpa [List.all_eq_true] using hz)
      · rw [if_neg hz]
        push_neg at hz
        obtain ⟨hmed, hallz⟩ := hz
        have hmed0 : pymedian (trailingVolumes bars) ≠ 0 := hmed.ne'
        have hnall : ¬(∀ v ∈ recentVolumes bars, v = 0) := by
          intro hall
          exact hallz (by simp [List.all_eq_true]; exact hall)
        simp only [Bool.and_eq_true, List.all_eq_true, decide_eq_true_eq]
        constructor
        · rintro ⟨hvol, hema⟩
          exact ⟨hg, h30, hmed0, hnall,
            fun v hv => by rw [mul_comm]; exact hvol v hv, hema⟩
        · rintro ⟨-, -, -, -, hvol, hema⟩
          exact ⟨fun v hv => by rw [mul_comm]; exact hvol v hv, hema⟩
    · rw [if_neg hg]
      simp [hg]
  · by_cases h20 : 20 < bars.length
    · rw [if_pos h20]
      by_cases hg : passesLiquidityGate bars minTurnover = true
      · rw [if_pos hg, if_neg h30]
        simp [h30]
      · rw [if_neg hg]
        simp [hg]
    · rw [if_neg h20]
      simp [h30]

lemma newRows_country (c : String) (res : FormattedResults) :
    ∀ r ∈ ttmRowsOf c res ++ spikeRowsOf c res, r.country = c := by
  intro r hr
  rcases List.mem_append.mp hr with h | h <;>
    · obtain ⟨s, hs, rfl⟩ := List.mem_map.mp h
      rfl

lemma save_filter_eq (db : DB) (c : String) (res : FormattedResults)
    (k : String) (n : ℕ) :
    ((save_scan_results c res k n db).scan_results.filter fun r => r.country == c) =
      ttmRowsOf c res ++ spikeRowsOf c res := by
  rw [save_scan_results]
  simp only [clear_old_results]
  rw [List.filter_append]
  have h1 : ((db.scan_results.filter fun r => !(r.country == c)).filter
      fun r => r.country == c) = [] := by
    rw [List.filter_filter]
    apply List.filter_eq_nil_iff.mpr
    intro r _
    cases hb : (r.country == c) <;> simp [hb]
  have h2 : ((ttmRowsOf c res ++ spikeRowsOf c res).filter fun r => r.country == c) =
      ttmRowsOf c res ++ spikeRowsOf c res :=
    List.filter_eq_self.mpr fun r hr => by rw [newRows_country c res r hr]; simp
  rw [h1, h2, List.nil_append]

/-- C8: saving identical results twice in succession for a market stores
exactly the rows of a single save — the second save fully replaces the first
snapshot, so the per-market row list (hence its count) is unchanged and no
duplicates appear. -/
theorem c8_save_idempotent_rows (db : DB) (country : String)
    (results : FormattedResults) (kind kind2 : String) (now now2 : ℕ) :
    ((save_scan_results country results kind2 now2
        (save_scan_results country results kind now db)).scan_results.filter
      fun r => r.country == country) =
      ((save_scan_results country results kind now db).scan_results.filter
        fun r => r.country == country) ∧
    ((save_scan_results country results kind2 now2
        (save_scan_results country results kind now db)).scan_results.filter
      fun r => r.country == country).length =
      ((save_scan_results country results kind now db).scan_results.filter
        fun r => r.country == country).length := by
  have h := save_filter_eq (save_scan_results country results kind now db)
    country results kind2 now2
  have h2 := save_filter_eq db country results kind now
  exact ⟨h.trans h2.symm, by rw [h, h2]⟩

/-- State with one prior stored US row and a prior completed session. -/
def priorState : AppState :=
  ⟨[], ⟨[⟨"AAA", "US", "ttm_squeeze"⟩], [⟨"US", "manual", "completed", 0, 1⟩]⟩⟩

/-- C6 counterexample: a run for US cancelled at the post-fetch checkpoint
returns empty result sets without raising, but the prior US snapshot is not
left unchanged — the caller persists the empty result sets, so the stored
rows for US are wiped. -/
theorem c6_counterexample :
    (run_market_scanner_manual priorState "US" true ⟨[], []⟩ 1).1 = Except.ok ⟨0, 0⟩ ∧
    (run_market_scanner_manual priorState "US" true ⟨[], []⟩ 1).2.db.scan_results = [] ∧
    priorState.db.scan_results ≠ [] := by
  refine ⟨rfl, rfl, by decide⟩

/-- C6 (amended): a run whose token was removed before the post-fetch
checkpoint short-circuits with empty result sets and does not raise, but the
caller still persists them to the store: afterwards the market has zero
stored rows (the prior snapshot is superseded by the empty one) and a new
completed zero-result session is appended. -/
theorem c6_amended_cancelled_run (st : AppState) (country : String) (now : ℕ)
    (hc : country = "US" ∨ country = "AU")
    (hnr : country ∉ st.running_scans) :
    (run_market_scanner_manual st country true ⟨[], []⟩ now).1 = Except.ok ⟨0, 0⟩ ∧
    ((run_market_scanner_manual st country true ⟨[], []⟩ now).2.db.scan_results.filter
      fun r => r.country == country) = [] ∧
    (run_market_scanner_manual st country true ⟨[], []⟩ now).2.db.scan_sessions =
      st.db.scan_sessions ++ [⟨country, "manual", "completed", now, 0⟩] := by
  rw [run_market_scanner_manual]
  rw [if_neg (not_not_intro hc), if_neg (by simpa using hnr),
    if_pos (show (true = true) from rfl)]
  refine ⟨rfl, ?_, ?_⟩
  · rw [save_filter_eq]
    rfl
  · rw [save_scan_results]
    simp [clear_old_results, ttmRowsOf, spikeRowsOf]

/-- Witness for the amended C6 at a state holding one prior US row. -/
theorem c6_witness :
    (run_market_scanner_manual priorState "US" true ⟨[], []⟩ 5).1 = Except.ok ⟨0, 0⟩ ∧
    ((run_market_scanner_manual priorState "US" true ⟨[], []⟩ 5).2.db.scan_results.filter
      fun r => r.country == "US") = [] ∧
    (run_market_scanner_manual priorState "US" true ⟨[], []⟩ 5).2.db.scan_sessions =
      priorState.db.scan_sessions ++ [⟨"US", "manual", "completed", 5, 0⟩] :=
  c6_amended_cancelled_run priorState "US" 5 (Or.inl rfl) (by simp [priorState])

/-- State in which the US token is currently held by a running scan. -/
def heldState : AppState := ⟨["US"], ⟨[], []⟩⟩

/-- C7: the claim is the intended behaviour, but the code has a slip — the
conflict raise (`HTTPException(409)`) is caught by the handler's own generic
`except`, which discards the *first* run's token and re-raises a 500.  The
rejected second request therefore does not leave the registry unchanged: the
running scan's token is removed (cancelling it cooperatively).  Evaluated
here at the failing input: US token held, second start-scan for US. -/
theorem c7_conflict_discards_token :
    (run_market_scanner_manual heldState "US" false ⟨[], []⟩ 0).2.running_scans = [] ∧
    heldState.running_scans = ["US"] ∧
    (run_market_scanner_manual heldState "US" false ⟨[], []⟩ 0).1 =
      Except.error (ApiError.httpError 500
        ("Error running scanner: 409: Market scanner for US is already running")) := by
  refine ⟨by decide, rfl, rfl⟩

/-- C10: whenever the stored result lists of a market are both empty, the
scheduler read path returns `none` — even when a completed scan session for
that market exists, so a completed zero-result scan is indistinguishable
from never having scanned. -/
theorem c10_empty_results_read_none (db : DB) (country : String)
    (h1 : (db.scan_results.filter fun r =>
      r.country == country && r.scan_type == "ttm_squeeze") = [])
    (h2 : (db.scan_results.filter fun r =>
      r.country == country && r.scan_type == "volume_spike") = []) :
    schedulerGetLatestResults db country = none := by
  rw [schedulerGetLatestResults, dbGetLatestResults]
  cases hl : latestCompletedSession db country with
  | none => simp
  | some s => simp [h1, h2]

/-- Store holding a completed US session but no result rows. -/
def sessionOnlyDB : DB := ⟨[], [⟨"US", "manual", "completed", 7, 3⟩]⟩

/-- Witness for C10: a completed US session with zero stored rows reads back
as `none`. -/
theorem c10_witness :
    (sessionOnlyDB.scan_results.filter fun r =>
      r.country == "US" && r.scan_type == "ttm_squeeze") = [] ∧
    (sessionOnlyDB.scan_results.filter fun r =>
      r.country == "US" && r.scan_type == "volume_spike") = [] ∧
    latestCompletedSession sessionOnlyDB "US" = some ⟨"US", "manual", "completed", 7, 3⟩ ∧
    schedulerGetLatestResults sessionOnlyDB "US" = none :=
  ⟨rfl, rfl, by decide, c10_empty_results_read_none sessionOnlyDB "US" rfl rfl⟩

end Scanner
